import Mathlib

/-!
A shallow embedding of the `fm-scout` tool's core (src/main.rs): the
`Player` record model, the position-weighted scoring function
`Player.calculate_score`, and the filter-and-rank pipeline `find_gems`.

Numeric modelling: Rust `f64` fields (`value`, `wage`, scores) are modelled
as exact rationals `ℚ`; all the arithmetic performed by the scoring function
(sums, products and divisions of small integers and the constants 2.0, 1.5,
1.0, 0.4, 0.2, 200.0, 50_000_000.0, 1_000_000.0) is exact, so the rational
semantics agrees with the floating-point one on the comparisons made here.
`u8` fields are modelled as `Nat` (only compared and converted, never
overflowed). Rust's stable `sort_by` is modelled by `List.mergeSort`, which
is also a stable merge sort. The progress bar in `find_gems` only performs
output and does not affect the result, so it is omitted.
-/

namespace FMScout

/-- The athlete record, translated field-for-field from `struct Player`
in src/main.rs. -/
structure Player where
  name : String
  age : Nat
  club : String
  nationality : String
  position : String
  value : ℚ
  wage : ℚ
  current_ability : Nat
  potential_ability : Nat
  finishing : Nat
  first_touch : Nat
  passing : Nat
  technique : Nat
  dribbling : Nat
  tackling : Nat
  decisions : Nat
  anticipation : Nat
  composure : Nat
  vision : Nat
  work_rate : Nat
  acceleration : Nat
  pace : Nat
  stamina : Nat
  strength : Nat
  jumping : Nat
deriving DecidableEq

/-- The filter configuration, translated from `struct Args` in src/main.rs
(the `file` path field is I/O plumbing and does not reach the core). -/
structure Args where
  max_age : Nat
  max_value : ℚ
  min_potential : Nat
  position : String
deriving DecidableEq

/-- Character-list uppercasing, modelling Rust `str::to_uppercase`
(identical on the ASCII strings used for position codes). -/
def upperChars (s : String) : List Char :=
  s.data.map Char.toUpper

/-- The `position_weights` table built at the top of
`Player::calculate_score`: the uppercased position string selects one of
four fixed five-pair (attribute, weight) profiles. The Rust `match` on the
uppercased string is modelled as the equivalent chain of string-equality
tests, at the character-list level. -/
def position_weights (p : Player) (position : String) : List (Nat × ℚ) :=
  if upperChars position = "ST".data then
    [(p.finishing, 2), (p.first_touch, 1.5), (p.acceleration, 1.5),
     (p.pace, 1.5), (p.composure, 1)]
  else if upperChars position = "CM".data then
    [(p.passing, 2), (p.vision, 1.5), (p.decisions, 1.5),
     (p.stamina, 1), (p.work_rate, 1.5)]
  else if upperChars position = "CB".data then
    [(p.tackling, 2), (p.strength, 1.5), (p.jumping, 1.5),
     (p.anticipation, 1.5), (p.decisions, 1)]
  else
    [(p.technique, 1), (p.decisions, 1), (p.stamina, 1),
     (p.strength, 1), (p.work_rate, 1)]

/-- The `attribute_score` local of `Player::calculate_score`:
Σ(attribute × weight) / Σ(weight) over the selected profile. -/
def attribute_score (p : Player) (position : String) : ℚ :=
  ((position_weights p position).map (fun pr => (pr.1 : ℚ) * pr.2)).sum /
    ((position_weights p position).map (fun pr => pr.2)).sum

/-- The `potential_score` local of `Player::calculate_score`. -/
def potential_score (p : Player) : ℚ :=
  (p.potential_ability : ℚ) / 200

/-- The `value_score` local of `Player::calculate_score`. -/
def value_score (p : Player) : ℚ :=
  1 - (min p.value 50000000) / 50000000

/-- `Player::calculate_score` from src/main.rs. -/
def Player.calculate_score (p : Player) (position : String) : ℚ :=
  (attribute_score p position * 0.4) + (potential_score p * 0.4) +
    (value_score p * 0.2)

/-- Character-list lowercasing, modelling Rust `str::to_lowercase`
(identical on the ASCII strings used for position codes). -/
def lowerChars (s : String) : List Char :=
  s.data.map Char.toLower

/-- `startsWithChars needle hay` holds when `needle` begins `hay`. -/
def startsWithChars : List Char → List Char → Bool
  | [], _ => true
  | _ :: _, [] => false
  | a :: as, b :: bs => a == b && startsWithChars as bs

/-- `containsChars needle hay`: `needle` occurs contiguously inside `hay`,
modelling Rust `str::contains` (an empty needle always matches). -/
def containsChars (needle : List Char) : List Char → Bool
  | [] => needle.isEmpty
  | b :: bs => startsWithChars needle (b :: bs) || containsChars needle bs

/-- The filter closure inside `find_gems`: all four clauses must hold
(age, value, potential, case-insensitive position substring). -/
def passesFilter (args : Args) (p : Player) : Bool :=
  decide (p.age ≤ args.max_age) &&
  decide (p.value ≤ args.max_value * 1000000) &&
  decide (args.min_potential ≤ p.potential_ability) &&
  containsChars (lowerChars args.position) (lowerChars p.position)

/-- The sort comparator of `find_gems`: `a` sorts before `b` when
`score b ≤ score a` (descending by score; the Rust code compares
`score_b.partial_cmp(&score_a)`). -/
def scoreLe (args : Args) (a b : Player) : Bool :=
  decide (b.calculate_score args.position ≤ a.calculate_score args.position)

/-- `find_gems` from src/main.rs: keep the records passing the filter, then
stable-sort them in descending score order. -/
def find_gems (players : List Player) (args : Args) : List Player :=
  (players.filter (passesFilter args)).mergeSort (scoreLe args)

/-- Membership in the output of `find_gems`: a record is in the output iff
it is in the input and passes the filter. Shared helper for the claims. -/
theorem mem_find_gems (players : List Player) (args : Args) (r : Player) :
    r ∈ find_gems players args ↔ r ∈ players ∧ passesFilter args r = true := by
  unfold find_gems
  rw [List.mem_mergeSort, List.mem_filter]

/-- Record A of the spec's end-to-end example (§8.7): age 20, value
2,000,000, potential 150, position "ST", finishing 18, first_touch 16,
acceleration 17, pace 18, composure 14; unspecified fields arbitrary. -/
def recordA : Player :=
  { name := "A", age := 20, club := "", nationality := "", position := "ST",
    value := 2000000, wage := 1000, current_ability := 120,
    potential_ability := 150, finishing := 18, first_touch := 16,
    passing := 10, technique := 10, dribbling := 10, tackling := 10,
    decisions := 10, anticipation := 10, composure := 14, vision := 10,
    work_rate := 10, acceleration := 17, pace := 18, stamina := 10,
    strength := 10, jumping := 10 }

/-- Record B of the spec's end-to-end example (§8.7): age 25, value
1,000,000, potential 160, position "ST"; unspecified fields arbitrary. -/
def recordB : Player :=
  { name := "B", age := 25, club := "", nationality := "", position := "ST",
    value := 1000000, wage := 1000, current_ability := 120,
    potential_ability := 160, finishing := 12, first_touch := 12,
    passing := 12, technique := 12, dribbling := 12, tackling := 12,
    decisions := 12, anticipation := 12, composure := 12, vision := 12,
    work_rate := 12, acceleration := 12, pace := 12, stamina := 12,
    strength := 12, jumping := 12 }

/-- The configuration of the spec's end-to-end example (§8.7). -/
def exampleArgs : Args :=
  { max_age := 23, max_value := 5, min_potential := 130, position := "ST" }

/-- A configuration with an empty target position string. -/
def argsEmptyPos : Args :=
  { max_age := 30, max_value := 5, min_potential := 100, position := "" }

/-- Record A passes every clause of the example filter. -/
theorem passA : passesFilter exampleArgs recordA = true := by
  simp only [passesFilter, Bool.and_eq_true, decide_eq_true_eq]
  refine ⟨⟨⟨by decide, ?_⟩, by decide⟩, by decide⟩
  norm_num [recordA, exampleArgs]

/-- Record B fails the age clause of the example filter. -/
theorem passB : passesFilter exampleArgs recordB = false := by
  simp only [passesFilter]
  rw [show decide (recordB.age ≤ exampleArgs.max_age) = false by decide]
  simp

/-- Evaluation of `find_gems` on the spec's end-to-end example. -/
theorem gems_example_eval :
    find_gems [recordA, recordB] exampleArgs = [recordA] := by
  unfold find_gems
  have h1 : List.filter (passesFilter exampleArgs) [recordA, recordB] = [recordA] := by
    simp [List.filter, passA, passB]
  rw [h1]
  simp [List.mergeSort]

/-- C1: a record of the input appears in the output of `find_gems` iff all
four filter clauses hold: age ≤ max_age, value ≤ max_value × 1,000,000,
potential_ability ≥ min_potential, and the lowercased record position
contains the lowercased target position as a substring. -/
theorem filter_correctness (players : List Player) (args : Args) (r : Player)
    (h : r ∈ players) :
    r ∈ find_gems players args ↔
      (r.age ≤ args.max_age ∧ r.value ≤ args.max_value * 1000000 ∧
       args.min_potential ≤ r.potential_ability ∧
       containsChars (lowerChars args.position) (lowerChars r.position) = true) := by
  rw [mem_find_gems]
  simp [passesFilter, h, and_assoc]

/-- Witness for C1: record A with position "ST" satisfies all four clauses
of the example configuration and is in the output. -/
theorem filter_correctness_witness :
    recordA ∈ find_gems [recordA, recordB] exampleArgs :=
  (filter_correctness [recordA, recordB] exampleArgs recordA (by simp)).mpr
    ⟨by decide, by norm_num [recordA, exampleArgs], by decide, by decide⟩

/-- C3: the output of `find_gems` is non-increasing in score: for every
adjacent pair (a, b), score of b ≤ score of a against the target position. -/
theorem ranking_order (players : List Player) (args : Args) :
    (find_gems players args).Chain'
      (fun a b => b.calculate_score args.position ≤ a.calculate_score args.position) := by
  have htrans : ∀ a b c : Player,
      scoreLe args a b → scoreLe args b c → scoreLe args a c := by
    intro a b c hab hbc
    simp only [scoreLe, decide_eq_true_eq] at hab hbc ⊢
    exact le_trans hbc hab
  have htotal : ∀ a b : Player, scoreLe args a b || scoreLe args b a := by
    intro a b
    simp only [scoreLe, Bool.or_eq_true, decide_eq_true_eq]
    exact le_total _ _
  have hp := List.sorted_mergeSort htrans htotal (players.filter (passesFilter args))
  have hp2 : (find_gems players args).Pairwise
      (fun a b => b.calculate_score args.position ≤ a.calculate_score args.position) := by
    refine hp.imp ?_
    intro a b hab
    simpa [scoreLe] using hab
  exact hp2.chain'

/-- C4: `find_gems` is total: the sort comparator is total on scores (the
rational-valued scores always compare, the model of "no surviving score is
NaN so the unwrap of partial_cmp succeeds"), and when no record passes the
filter the result is the empty list, not an error. -/
theorem find_gems_never_raises (players : List Player) (args : Args) :
    (∀ a b : Player, scoreLe args a b = true ∨ scoreLe args b a = true) ∧
    ((∀ r ∈ players, passesFilter args r = false) → find_gems players args = []) := by
  constructor
  · intro a b
    simp only [scoreLe, decide_eq_true_eq]
    exact le_total _ _
  · intro h
    unfold find_gems
    have hnil : players.filter (passesFilter args) = [] := by
      rw [List.filter_eq_nil_iff]
      intro a ha
      simp [h a ha]
    rw [hnil, List.mergeSort_nil]

/-- Witness for C4: with the example configuration and only record B (too
old) as input, nothing passes and the output is the empty list. -/
theorem find_gems_never_raises_witness :
    find_gems [recordB] exampleArgs = [] :=
  (find_gems_never_raises [recordB] exampleArgs).2 (by simpa using passB)

/-- C7: on the spec's end-to-end example, the output contains exactly
record A (record B is excluded by the age clause). -/
theorem end_to_end_example :
    find_gems [recordA, recordB] exampleArgs = [recordA] :=
  gems_example_eval

/-- C9: `find_gems` draws its output only from the input: the output is a
permutation of the filtered input, and every output record is
field-for-field a member of the input list. (The embedding of the Rust
function is pure: the input list itself is untouched by construction;
the Rust code only reads `players` through `par_iter` and clones.) -/
theorem find_gems_no_mutation (players : List Player) (args : Args) :
    (find_gems players args).Perm (players.filter (passesFilter args)) ∧
    ∀ r ∈ find_gems players args, r ∈ players := by
  constructor
  · exact List.mergeSort_perm _ _
  · intro r hr
    exact ((mem_find_gems players args r).1 hr).1

/-- Witness for C9: record A is in the output of the example run, and the
theorem places it back in the input list. -/
theorem find_gems_no_mutation_witness :
    recordA ∈ [recordA, recordB] :=
  (find_gems_no_mutation [recordA, recordB] exampleArgs).2 recordA
    (by rw [gems_example_eval]; exact List.mem_singleton_self recordA)

/-- The spec's attribute score (§4.1, written from the spec's words for
comparison with the source-derived `attribute_score`): the weighted mean
Σ(attribute × weight) / Σ(weight) over the five pairs of the profile
selected by the uppercased position, with the spec's weight tables. -/
def spec_attribute_score (p : Player) (position : String) : ℚ :=
  if upperChars position = "ST".data then
    (2 * (p.finishing : ℚ) + 1.5 * (p.first_touch : ℚ) +
      1.5 * (p.acceleration : ℚ) + 1.5 * (p.pace : ℚ) + 1 * (p.composure : ℚ)) /
      (2 + 1.5 + 1.5 + 1.5 + 1)
  else if upperChars position = "CM".data then
    (2 * (p.passing : ℚ) + 1.5 * (p.vision : ℚ) +
      1.5 * (p.decisions : ℚ) + 1 * (p.stamina : ℚ) + 1.5 * (p.work_rate : ℚ)) /
      (2 + 1.5 + 1.5 + 1 + 1.5)
  else if upperChars position = "CB".data then
    (2 * (p.tackling : ℚ) + 1.5 * (p.strength : ℚ) +
      1.5 * (p.jumping : ℚ) + 1.5 * (p.anticipation : ℚ) + 1 * (p.decisions : ℚ)) /
      (2 + 1.5 + 1.5 + 1.5 + 1)
  else
    (1 * (p.technique : ℚ) + 1 * (p.decisions : ℚ) + 1 * (p.stamina : ℚ) +
      1 * (p.strength : ℚ) + 1 * (p.work_rate : ℚ)) /
      (1 + 1 + 1 + 1 + 1)

/-- The spec's overall score formula (§4.1, written from the spec's words):
0.4 × attribute_score + 0.4 × (potential / 200) +
0.2 × (1 − min(value, 50,000,000) / 50,000,000). -/
def spec_score (p : Player) (position : String) : ℚ :=
  0.4 * spec_attribute_score p position + 0.4 * ((p.potential_ability : ℚ) / 200) +
    0.2 * (1 - min p.value 50000000 / 50000000)

/-- C2: `Player.calculate_score`, as translated from the source, computes
exactly the spec's formula: 0.4 × weighted-mean attribute score (with the
spec's weight tables, selected by uppercased position) + 0.4 × potential/200
+ 0.2 × (1 − min(value, 50M)/50M). -/
theorem calculate_score_eq_spec (p : Player) (position : String) :
    p.calculate_score position = spec_score p position := by
  unfold Player.calculate_score spec_score potential_score value_score
    attribute_score spec_attribute_score position_weights
  split_ifs <;>
    simp only [List.map_cons, List.map_nil, List.sum_cons, List.sum_nil] <;>
    ring

/-- Positions with the same uppercasing select the same weight profile,
hence the same score. Shared helper for the dispatch claim. -/
theorem score_congr (p : Player) (q r : String)
    (h : upperChars q = upperChars r) :
    p.calculate_score q = p.calculate_score r := by
  unfold Player.calculate_score attribute_score position_weights
  rw [h]

/-- C5: scoring dispatches on the uppercased position: "st", "ST", "St" all
give the same score, and any position whose uppercasing is none of "ST",
"CM", "CB" scores with the default profile (the same as "GK"), with no
error. -/
theorem score_case_insensitive_dispatch (p : Player) :
    p.calculate_score "st" = p.calculate_score "ST" ∧
    p.calculate_score "St" = p.calculate_score "ST" ∧
    ∀ position : String, upperChars position ≠ "ST".data →
      upperChars position ≠ "CM".data → upperChars position ≠ "CB".data →
      p.calculate_score position = p.calculate_score "GK" := by
  refine ⟨score_congr p "st" "ST" (by decide),
    score_congr p "St" "ST" (by decide), ?_⟩
  intro pos h1 h2 h3
  have hGK : position_weights p "GK" = [(p.technique, 1), (p.decisions, 1),
      (p.stamina, 1), (p.strength, 1), (p.work_rate, 1)] := by
    unfold position_weights
    rw [if_neg (by decide), if_neg (by decide), if_neg (by decide)]
  have hpos : position_weights p pos = [(p.technique, 1), (p.decisions, 1),
      (p.stamina, 1), (p.strength, 1), (p.work_rate, 1)] := by
    unfold position_weights
    rw [if_neg h1, if_neg h2, if_neg h3]
  unfold Player.calculate_score attribute_score
  rw [hpos, hGK]

/-- Witness for C5: "LB" is not one of the recognized codes, so record A's
"LB" score equals its "GK" (default-profile) score. -/
theorem score_case_insensitive_dispatch_witness :
    recordA.calculate_score "LB" = recordA.calculate_score "GK" :=
  (score_case_insensitive_dispatch recordA).2.2 "LB" (by decide) (by decide)
    (by decide)

/-- C6: the value-score component is 1 at market value 0, is 0 at any
market value ≥ 50,000,000 (clamped at the cap), and is 1/2 at market value
exactly 25,000,000. -/
theorem value_score_boundaries (p : Player) :
    (p.value = 0 → value_score p = 1) ∧
    (50000000 ≤ p.value → value_score p = 0) ∧
    (p.value = 25000000 → value_score p = 1/2) := by
  refine ⟨?_, ?_, ?_⟩
  · intro h
    rw [value_score, h]
    norm_num
  · intro h
    rw [value_score, min_eq_right h]
    norm_num
  · intro h
    rw [value_score, h,
      min_eq_left (by norm_num : (25000000 : ℚ) ≤ 50000000)]
    norm_num

/-- Witness for C6: the three boundary values, evaluated on copies of
record A with market value 0, 60,000,000 and 25,000,000. -/
theorem value_score_boundaries_witness :
    value_score { recordA with value := 0 } = 1 ∧
    value_score { recordA with value := 60000000 } = 0 ∧
    value_score { recordA with value := 25000000 } = 1/2 :=
  ⟨(value_score_boundaries { recordA with value := 0 }).1 rfl,
   (value_score_boundaries { recordA with value := 60000000 }).2.1 (by norm_num),
   (value_score_boundaries { recordA with value := 25000000 }).2.2 rfl⟩

/-- Weighted means with positive weights lie between any bounds enclosing
all the values. Shared helper for the convexity claim. -/
theorem weightedMean_bounds (l : List (Nat × ℚ)) (lo hi : ℚ)
    (hw : ∀ pr ∈ l, 0 < pr.2) (hne : l ≠ [])
    (h : ∀ pr ∈ l, lo ≤ (pr.1 : ℚ) ∧ (pr.1 : ℚ) ≤ hi) :
    lo ≤ (l.map (fun pr => (pr.1 : ℚ) * pr.2)).sum /
        (l.map (fun pr => pr.2)).sum ∧
      (l.map (fun pr => (pr.1 : ℚ) * pr.2)).sum /
        (l.map (fun pr => pr.2)).sum ≤ hi := by
  have hwsum : 0 < (l.map (fun pr => pr.2)).sum := by
    apply List.sum_pos
    · intro x hx
      obtain ⟨pr, hpr, rfl⟩ := List.mem_map.1 hx
      exact hw pr hpr
    · simpa using hne
  constructor
  · rw [le_div_iff₀ hwsum]
    calc lo * (l.map (fun pr => pr.2)).sum
        = (l.map (fun pr => lo * pr.2)).sum := (List.sum_map_mul_left l _ lo).symm
      _ ≤ (l.map (fun pr => (pr.1 : ℚ) * pr.2)).sum := by
          apply List.sum_le_sum
          intro pr hpr
          exact mul_le_mul_of_nonneg_right (h pr hpr).1 (le_of_lt (hw pr hpr))
  · rw [div_le_iff₀ hwsum]
    calc (l.map (fun pr => (pr.1 : ℚ) * pr.2)).sum
        ≤ (l.map (fun pr => hi * pr.2)).sum := by
          apply List.sum_le_sum
          intro pr hpr
          exact mul_le_mul_of_nonneg_right (h pr hpr).2 (le_of_lt (hw pr hpr))
      _ = hi * (l.map (fun pr => pr.2)).sum := List.sum_map_mul_left l _ hi

/-- C8: the attribute score is a convex combination of the five selected
attribute values: it lies between any lower and upper bound enclosing all
five (in particular between their minimum and maximum, and within the
rating scale whenever all five attributes are within it). -/
theorem attribute_score_convex (p : Player) (position : String) (lo hi : ℚ)
    (h : ∀ pr ∈ position_weights p position, lo ≤ (pr.1 : ℚ) ∧ (pr.1 : ℚ) ≤ hi) :
    lo ≤ attribute_score p position ∧ attribute_score p position ≤ hi := by
  have hw : ∀ pr ∈ position_weights p position, 0 < pr.2 := by
    unfold position_weights
    split_ifs <;> intro pr hpr <;> simp only [List.mem_cons, List.not_mem_nil,
      or_false] at hpr <;>
      rcases hpr with rfl | rfl | rfl | rfl | rfl <;> norm_num
  have hne : position_weights p position ≠ [] := by
    unfold position_weights
    split_ifs <;> simp
  exact weightedMean_bounds _ lo hi hw hne h

/-- The ST profile of record A, evaluated. -/
theorem pw_A_ST : position_weights recordA "ST" =
    [(18, 2), (16, 1.5), (17, 1.5), (18, 1.5), (14, 1)] := rfl

/-- Witness for C8: record A's ST attributes all lie in [1, 20], so its ST
attribute score does too. -/
theorem attribute_score_convex_witness :
    1 ≤ attribute_score recordA "ST" ∧ attribute_score recordA "ST" ≤ 20 :=
  attribute_score_convex recordA "ST" 1 20 (by
    rw [pw_A_ST]
    intro pr hpr
    simp only [List.mem_cons, List.not_mem_nil, or_false] at hpr
    rcases hpr with rfl | rfl | rfl | rfl | rfl <;> constructor <;> norm_num)

/-- C10: with an empty target position string the substring clause holds
vacuously for every record, so `find_gems` filters on age, value and
potential alone, and every record is scored with the default weight
profile. -/
theorem empty_position_behavior (players : List Player) (args : Args)
    (hpos : args.position = "") :
    (∀ r ∈ players, (r ∈ find_gems players args ↔
      r.age ≤ args.max_age ∧ r.value ≤ args.max_value * 1000000 ∧
      args.min_potential ≤ r.potential_ability)) ∧
    (∀ r : Player, position_weights r args.position =
      [(r.technique, 1), (r.decisions, 1), (r.stamina, 1),
       (r.strength, 1), (r.work_rate, 1)]) := by
  have hcont : ∀ cs : List Char, containsChars [] cs = true := by
    intro cs
    cases cs <;> rfl
  constructor
  · intro r hr
    rw [mem_find_gems]
    simp [passesFilter, hr, hpos, lowerChars, hcont, and_assoc]
  · intro r
    rw [hpos]
    rfl

/-- Witness for C10: with an empty target position, record B passes the
remaining three clauses of a permissive configuration and is included. -/
theorem empty_position_behavior_witness :
    recordB ∈ find_gems [recordB] argsEmptyPos :=
  ((empty_position_behavior [recordB] argsEmptyPos rfl).1 recordB
      (List.mem_singleton_self recordB)).mpr
    ⟨by decide, by norm_num [recordB, argsEmptyPos], by decide⟩

end FMScout
